import Mathlib

set_option maxRecDepth 8000

/-!
Shallow embedding of the frontend data-extraction pipeline and its
filesystem helper tasks.

The extraction test drives a browser over a list of companies, resolves
15 labeled field values from each company's detail page through a jQuery
selector chain, assembles a verification record with extraction metadata,
and writes one JSON artifact per company.  Three node-side tasks clear the
downloads folder, relocate the most recent downloaded PDF, and patch two
copies of a configuration file.

DOM pages are modelled as element trees (tag, class attribute, own text,
children); jQuery operations (`find`, `closest`, `:contains`, `[class*=]`,
`.text()`, `.first()`) are modelled as pure functions over those trees.
-/

/-- Test `subAt pat l`: some contiguous segment of `l` equals `pat`. -/
def subAt (pat : List Char) : List Char → Bool
  | [] => pat.isEmpty
  | c :: cs => pat.isPrefixOf (c :: cs) || subAt pat cs

/-- Case-sensitive substring test (JS `String.includes`, jQuery
`:contains`, CSS `[class*=...]`). -/
def strContains (s pat : String) : Bool :=
  subAt pat.toList s.toList

/-- Test whether `pat` is a trailing segment of `l`. -/
def endsWithList (l pat : List Char) : Bool :=
  pat.reverse.isPrefixOf l.reverse

/-- The class-token list of a whitespace-separated class attribute. -/
def classTokens : List Char → List Char → List (List Char)
  | acc, [] => [acc.reverse]
  | acc, c :: cs => if c = ' ' then acc.reverse :: classTokens [] cs else classTokens (c :: acc) cs

/-- The whitespace-separated class attribute `kl` has the token `c`
(CSS class selector `.c`). -/
def hasClass (kl c : String) : Bool :=
  (classTokens [] kl.toList).contains c.toList

/-- JS `String.prototype.trim`: strip whitespace from both ends. -/
def strTrim (s : String) : String :=
  ⟨((s.toList.dropWhile Char.isWhitespace).reverse.dropWhile Char.isWhitespace).reverse⟩

/-- JS `String.prototype.startsWith`. -/
def strStarts (s pat : String) : Bool :=
  pat.toList.isPrefixOf s.toList

/-- A DOM element: tag name, class attribute, own text, children. -/
inductive Dom where
  | el (tag : String) (klass : String) (text : String) (children : List Dom)

def Dom.tagOf : Dom → String
  | .el t _ _ _ => t

def Dom.klassOf : Dom → String
  | .el _ k _ _ => k

def Dom.textOf : Dom → String
  | .el _ _ x _ => x

def Dom.childrenOf : Dom → List Dom
  | .el _ _ _ cs => cs

mutual
/-- Rendered text of an element including its descendants
(jQuery `.text()`). -/
def textContent : Dom → String
  | .el _ _ x [] => x
  | .el _ _ x (c :: cs) => x ++ textContentList (c :: cs)

def textContentList : List Dom → String
  | [] => ""
  | c :: cs => textContent c ++ textContentList cs
end

mutual
/-- A node paired with its ancestor chain (nearest ancestor first),
followed by the same data for all of its descendants, in document
(preorder) order. -/
def nodesWithAnc (anc : List Dom) : Dom → List (Dom × List Dom)
  | .el t k x cs =>
      (.el t k x cs, anc) :: nodesWithAncList (.el t k x cs :: anc) cs

def nodesWithAncList (anc : List Dom) : List Dom → List (Dom × List Dom)
  | [] => []
  | c :: cs => nodesWithAnc anc c ++ nodesWithAncList anc cs
end

mutual
/-- All strict descendants of an element in document (preorder) order
(the search space of jQuery `.find`). -/
def descendants : Dom → List Dom
  | .el _ _ _ cs => preorderList cs

def preorderList : List Dom → List Dom
  | [] => []
  | c :: cs => (c :: descendants c) ++ preorderList cs
end

/-- First value-selector strategy:
`div.mt-1.line-clamp-2.text-sm.font-medium.text-content-primary`. -/
def matchesSel1 (d : Dom) : Bool :=
  d.tagOf == "div" && hasClass d.klassOf "mt-1" && hasClass d.klassOf "line-clamp-2"
    && hasClass d.klassOf "text-sm" && hasClass d.klassOf "font-medium"
    && hasClass d.klassOf "text-content-primary"

/-- Second value-selector strategy:
`span.text-sm.font-medium.text-content-primary`. -/
def matchesSel2 (d : Dom) : Bool :=
  d.tagOf == "span" && hasClass d.klassOf "text-sm" && hasClass d.klassOf "font-medium"
    && hasClass d.klassOf "text-content-primary"

/-- Third value-selector strategy:
`[class*="font-medium"][class*="text-content-primary"]`. -/
def matchesSel3 (d : Dom) : Bool :=
  strContains d.klassOf "font-medium" && strContains d.klassOf "text-content-primary"

/-- The three strategies are joined (`.join(', ')`) into one comma
selector, so an element matches when it matches any of them. -/
def matchesValueSel (d : Dom) : Bool :=
  matchesSel1 d || matchesSel2 d || matchesSel3 d

/-- Selector `[class*="text-content-secondary"]:contains(label)`. -/
def isLabelMatch (label : String) (d : Dom) : Bool :=
  strContains d.klassOf "text-content-secondary" && strContains (textContent d) label

/-- Search `$body.find('[class*="text-content-secondary"]:contains(label)')`:
all descendants of the body matching the label selector, with their
ancestor chains. -/
def labelMatches (body : Dom) (label : String) : List (Dom × List Dom) :=
  (nodesWithAncList [body] body.childrenOf).filter (fun p => isLabelMatch label p.1)

/-- Ascent `$label.closest('div[class*="rounded"]')` for one matched label:
nearest self-or-ancestor that is a `div` whose class contains
`rounded`. -/
def closestRounded (p : Dom × List Dom) : Option Dom :=
  (p.1 :: p.2).find? (fun d => d.tagOf == "div" && strContains d.klassOf "rounded")

/-- Resolution of one field label against the page body, following the
source: find label elements; if any, take their closest `rounded`
containers, collect the value-selector matches among the containers'
descendants, take the first (`.first()`), and return its trimmed text.
Candidates are concatenated per container in label-match order; jQuery
returns the deduplicated set in document order — the two agree whenever
the label resolves to a single container, which covers every page
considered below. -/
def resolveField (body : Dom) (label : String) : Option String :=
  let ls := labelMatches body label
  if ls.isEmpty then none
  else
    let containers := ls.filterMap closestRounded
    let candidates := (containers.map (fun c => (descendants c).filter matchesValueSel)).flatten
    match candidates with
    | [] => none
    | v :: _ => some (strTrim (textContent v))

/-- The fixed schema of (label, key) field definitions, in source
order. -/
def fieldDefs : List (String × String) :=
  [("Company name", "company_name"),
   ("Industry", "industry"),
   ("Location", "location"),
   ("Founders", "founders"),
   ("Founder Email", "founder_email"),
   ("Year Founded", "year_founded"),
   ("Funding Stage", "funding_stage"),
   ("Latest Valuation", "latest_valuation"),
   ("Fund Raise Target", "fund_raise_target"),
   ("Amount Raised", "amount_raised"),
   ("Revenue", "revenue"),
   ("List of investors", "list_of_investors"),
   ("Lead Investor", "lead_investor"),
   ("Verticals", "verticals"),
   ("Keywords", "keywords")]

/-- The 15 schema keys in record-initialisation order. -/
def schemaKeys : List String :=
  ["company_name", "industry", "location", "founders", "founder_email",
   "year_founded", "funding_stage", "latest_valuation", "fund_raise_target",
   "amount_raised", "revenue", "list_of_investors", "lead_investor",
   "verticals", "keywords"]

/-- The freshly initialised field portion of `verifyRecords`: every
schema key bound to the empty-string sentinel. -/
def initFields : List (String × String) :=
  schemaKeys.map (fun k => (k, ""))

/-- JS object assignment `r[k] = v` on an assoc list: replace the value
at an existing key, append the binding otherwise. -/
def setKey : List (String × String) → String → String → List (String × String)
  | [], k, v => [(k, v)]
  | kv :: rest, k, v => if kv.1 == k then (k, v) :: rest else kv :: setKey rest k v

/-- JS object read `r[k]`, defaulting to the empty-string sentinel. -/
def getKey : List (String × String) → String → String
  | [], _ => ""
  | kv :: rest, k => if kv.1 == k then kv.2 else getKey rest k

/-- The keys of an assoc list, in order (`Object.keys`). -/
def keysOf (r : List (String × String)) : List String :=
  r.map Prod.fst

/-- One iteration of the field loop: resolve the field's label and, when
a value element was found, store its trimmed text under the field's key;
otherwise leave the record unchanged. -/
def stepField (body : Dom) (r : List (String × String)) (f : String × String) :
    List (String × String) :=
  match resolveField body f.1 with
  | some v => setKey r f.2 v
  | none => r

/-- Loop `fields.forEach(...)` over an arbitrary field list. -/
def runFields (body : Dom) (fs : List (String × String)) (r : List (String × String)) :
    List (String × String) :=
  fs.foldl (stepField body) r

/-- Command `cy.extractCompanyFields(verifyRecords)`: run the field loop
over the fixed schema. -/
def extractCompanyFields (body : Dom) (r : List (String × String)) :
    List (String × String) :=
  runFields body fieldDefs r

/-- The `_extraction_metadata` object.  `fields_extracted` and
`extraction_success` are absent (`none`) until the summary step adds
them. -/
structure ExtractionMeta where
  extracted_at : String
  company_id : String
  frontend_url : String
  extraction_type : String
  total_fields : Nat
  fields_extracted : Option Nat
  extraction_success : Option Bool
deriving DecidableEq

/-- One entity descriptor from `config.json`. -/
structure Company where
  id : String
  name : String
  frontend_url : String
deriving DecidableEq

/-- A produced verification record: the 15 field bindings plus the
`_extraction_metadata` entry. -/
structure VerifyRecord where
  fields : List (String × String)
  metadata : ExtractionMeta
deriving DecidableEq

/-- The metadata object as initialised together with `verifyRecords`;
`t` is the `new Date().toISOString()` value at creation time. -/
def initMeta (c : Company) (t : String) : ExtractionMeta :=
  { extracted_at := t
    company_id := c.id
    frontend_url := c.frontend_url
    extraction_type := "ai_output_verification"
    total_fields := 15
    fields_extracted := none
    extraction_success := none }

/-- The summary count from the source: keys that are not reserved
(`!key.startsWith('_')`), whose value is truthy, and whose trimmed
string form is non-empty. -/
def fieldsWithData (fields : List (String × String)) : Nat :=
  (fields.filter (fun kv => !(strStarts kv.1 "_") && kv.2 != "" && strTrim kv.2 != "")).length

/-- The summary step: attach `fields_extracted` and
`extraction_success` to the metadata. -/
def finalizeMeta (fields : List (String × String)) (m : ExtractionMeta) : ExtractionMeta :=
  let n := fieldsWithData fields
  { m with fields_extracted := some n, extraction_success := some (decide (0 < n)) }

/-- Assemble the verification record for one company from the loaded
page body: initialise, extract every schema field, compute the summary
metadata. -/
def assemble (body : Dom) (c : Company) (t : String) : VerifyRecord :=
  let fs := extractCompanyFields body initFields
  { fields := fs, metadata := finalizeMeta fs (initMeta c t) }

/-- A loaded browser page: the URL the navigation actually landed on and
the rendered body. -/
structure Page where
  url : String
  body : Dom

/-- Assertion `cy.url().should('include', 'company-detail')`. -/
def urlOk (u : String) : Bool :=
  strContains u "company-detail"

/-- The output artifact name
`data/extracted/{company.name}_frontend_data.json`. -/
def outName (c : Company) : String :=
  "data/extracted/" ++ c.name ++ "_frontend_data.json"

/-- Message of the failed URL assertion. -/
def urlAssertionMsg : String :=
  "expected url to include company-detail"

/-- Process one company: navigate (modelled by `site`), assert the URL
includes `company-detail`, extract and assemble.  A failed assertion is
a test failure, not a recorded outcome. -/
def processCompany (site : Company → Page) (t : String) (c : Company) :
    Except String VerifyRecord :=
  let p := site c
  if urlOk p.url then .ok (assemble p.body c t)
  else .error urlAssertionMsg

/-- The `cy.wrap(companies).each(...)` loop: returns the written
artifacts in order, and the failure message of the assertion that
stopped the run, if any.  A failed Cypress assertion aborts the whole
`it` block, so nothing is recorded for the failing company and no later
company is processed. -/
def runBatch (site : Company → Page) (t : String) :
    List Company → List (String × VerifyRecord) × Option String
  | [] => ([], none)
  | c :: cs =>
    match processCompany site t c with
    | .ok r =>
        let rest := runBatch site t cs
        ((outName c, r) :: rest.1, rest.2)
    | .error e => ([], some e)

/-- A file in the downloads staging folder, with its modification
time. -/
structure DlFile where
  name : String
  mtime : Nat
deriving DecidableEq

/-- Return shape of the `moveDownloadedFile` task. -/
structure MoveResult where
  success : Bool
  filename : Option String
  fullPath : Option String
  error : Option String
deriving DecidableEq

/-- Test `file.toLowerCase().endsWith('.pdf')`. -/
def isPdf (f : DlFile) : Bool :=
  endsWithList (f.name.toList.map Char.toLower) ".pdf".toList

/-- Comparator `(a, b) => b.mtime - a.mtime`: sort most recent first. -/
def moreRecent (a b : DlFile) : Bool :=
  decide (b.mtime ≤ a.mtime)

/-- The `moveDownloadedFile` task: pick the most recently modified PDF
in the downloads folder, rename it into the target folder as
`{companyName}_Investment_Memo.pdf`, and report the outcome; when no
PDF exists, report failure instead of throwing.  Returns the result
object together with the downloads folder after the move. -/
def moveDownloadedFile (downloads : List DlFile) (companyName targetFolder : String) :
    MoveResult × List DlFile :=
  let files := (downloads.filter isPdf).mergeSort moreRecent
  match files with
  | [] =>
      ({ success := false, filename := none, fullPath := none,
         error := some "No PDF file found in downloads" }, downloads)
  | f :: _ =>
      let targetFileName := companyName ++ "_Investment_Memo.pdf"
      ({ success := true, filename := some targetFileName,
         fullPath := some (targetFolder ++ "/" ++ targetFileName),
         error := none }, downloads.erase f)

/-- One company entry of a parsed `config.json`. -/
structure CompanyCfg where
  name : String
  ai_generated_memo : String
deriving DecidableEq

/-- A parsed `config.json`. -/
structure ConfigData where
  companies : List CompanyCfg
deriving DecidableEq

/-- State of one configuration store location: absent, unreadable
(read or parse throws with the given message), or parsed content. -/
inductive FileState where
  | missing
  | unreadable (msg : String)
  | parsed (cfg : ConfigData)
deriving DecidableEq

/-- The two configuration store locations, in source order. -/
def configPaths : List String :=
  ["cypress/fixtures/config.json", "config.json"]

/-- Per-location entry of the configuration-patch report. -/
structure PathResult where
  path : String
  success : Bool
  message : Option String
  memoPath : Option String
  error : Option String
deriving DecidableEq

/-- Aggregate report of the configuration-patch task. -/
structure UpdateResult where
  success : Bool
  totalFiles : Nat
  successCount : Nat
  results : List PathResult
  summary : String
deriving DecidableEq

/-- The memo path written for a company, under `data/ai_outputs`. -/
def memoPathFor (companyName : String) : String :=
  "data/ai_outputs/" ++ companyName ++ "_Investment_Memo.pdf"

/-- Patch one configuration store location: missing file, unreadable
file, company not found, and success each produce a structured entry;
nothing is thrown. -/
def patchOne (fsys : String → FileState) (companyName configPath : String) : PathResult :=
  match fsys configPath with
  | .missing =>
      { path := configPath, success := false, message := none, memoPath := none,
        error := some ("File does not exist: " ++ configPath) }
  | .unreadable msg =>
      { path := configPath, success := false, message := none, memoPath := none,
        error := some ("Error updating " ++ configPath ++ ": " ++ msg) }
  | .parsed cfg =>
      match cfg.companies.find? (fun c => c.name == companyName) with
      | some _ =>
          { path := configPath, success := true,
            message := some ("Updated " ++ configPath ++ " with memo path for " ++ companyName),
            memoPath := some (memoPathFor companyName), error := none }
      | none =>
          { path := configPath, success := false, message := none, memoPath := none,
            error := some ("Company " ++ companyName ++ " not found in " ++ configPath) }

/-- The `updateConfigWithMemoPath` task: patch both configuration store
locations and aggregate the per-location entries into counts, an overall
flag, and a human-readable summary. -/
def updateConfigWithMemoPath (fsys : String → FileState) (companyName : String) :
    UpdateResult :=
  let results := configPaths.map (patchOne fsys companyName)
  let successCount := (results.filter (fun r => r.success)).length
  { success := decide (0 < successCount)
    totalFiles := configPaths.length
    successCount := successCount
    results := results
    summary := "Updated " ++ toString successCount ++ "/" ++ toString configPaths.length
      ++ " config files for " ++ companyName }

/-- An entry directly inside the downloads folder: a regular file, or a
subdirectory with its contents. -/
inductive FsEntry where
  | file (name : String)
  | dir (name : String) (contents : List String)
deriving DecidableEq

/-- Test `fs.statSync(filePath).isFile()`. -/
def FsEntry.isFile : FsEntry → Bool
  | .file _ => true
  | .dir _ _ => false

/-- The `clearDownloads` task: when the downloads folder exists, unlink
every regular file directly inside it; always return `null` (the second
component).  The first component is the folder afterwards. -/
def clearDownloads (downloadsFolder : Option (List FsEntry)) :
    Option (List FsEntry) × Option String :=
  match downloadsFolder with
  | none => (none, none)
  | some entries => (some (entries.filter (fun e => !e.isFile)), none)

/-- A broad-only value candidate: matches the third strategy but neither
of the first two. -/
def broadValueEl (x : String) : Dom :=
  .el "div" "font-medium text-content-primary" x []

/-- A structural value candidate: matches the first strategy. -/
def structValueEl (x : String) : Dom :=
  .el "div" "mt-1 line-clamp-2 text-sm font-medium text-content-primary" x []

/-- A field label element. -/
def labelEl (x : String) : Dom :=
  .el "span" "text-content-secondary" x []

/-- A card container with the given children. -/
def cardDiv (cs : List Dom) : Dom :=
  .el "div" "rounded p-4" "" cs

/-- A body wrapping the given cards. -/
def mkBody (cs : List Dom) : Dom :=
  .el "body" "" "" cs

/-- Page with one `Industry` card whose broad-only candidate precedes
the structural candidate in document order. -/
def broadFirstBody (x1 x2 : String) : Dom :=
  mkBody [cardDiv [labelEl "Industry", broadValueEl x1, structValueEl x2]]

/-- Page with one `Industry` card whose structural candidate precedes
the broad-only candidate in document order. -/
def structFirstBody (x1 x2 : String) : Dom :=
  mkBody [cardDiv [labelEl "Industry", structValueEl x2, broadValueEl x1]]


/-- Page on which `Industry` and `Location` share one card: both labels
sit in the same `rounded` container, followed by the two value
elements. -/
def sharedCardBody : Dom :=
  mkBody [cardDiv [labelEl "Industry", broadValueEl "A", labelEl "Location", broadValueEl "B"]]

/-- Variant of `sharedCardBody` with the `Industry` label and its value
element removed, forcing `Industry` to resolve to nothing. -/
def sharedCardBodyNoInd : Dom :=
  mkBody [cardDiv [labelEl "Location", broadValueEl "B"]]


/-- The invariant count as the specification words it: non-reserved keys
(not starting with an underscore) whose trimmed value is a non-empty
string. -/
def claimFieldCount (fields : List (String × String)) : Nat :=
  (fields.filter (fun kv => !(strStarts kv.1 "_") && strTrim kv.2 != "")).length

/-- A company used in concrete scenarios below. -/
def cGood : Company :=
  { id := "1", name := "Algorithmics",
    frontend_url := "https://alphame.adgo.dev/company-detail/1" }

/-- A company whose navigation lands on an unexpected page. -/
def cBad : Company :=
  { id := "0", name := "BadCo", frontend_url := "https://alphame.adgo.dev/broken" }

/-- Concrete navigation map: `cBad` lands on a page whose URL lacks the
`company-detail` marker; every other company lands on the shared-card
detail page. -/
def demoSite : Company → Page :=
  fun c =>
    if c.name == "BadCo" then
      { url := "https://alphame.adgo.dev/not-found", body := mkBody [] }
    else
      { url := "https://alphame.adgo.dev/company-detail/1", body := sharedCardBody }

/-- Configuration stores in the scenario of the two claims below: the
fixtures copy parses to `cfg`, the root copy is missing. -/
def scenarioFs (cfg : ConfigData) : String → FileState :=
  fun p => if p == "cypress/fixtures/config.json" then .parsed cfg else .missing

/-- A parsed fixtures configuration naming one company. -/
def demoCfg : ConfigData :=
  { companies := [{ name := "Algorithmics", ai_generated_memo := "" }] }

/-- Downloads-folder contents used by the witnesses below. -/
def demoEntries : List FsEntry :=
  [.file "Old_Memo.pdf", .dir "archive" ["kept.txt", "kept2.txt"], .file "temp.json"]

/-- Staged downloads used by the relocation witness: two PDFs (one with
upper-case extension) and one non-PDF. -/
def demoDownloads : List DlFile :=
  [{ name := "Old_Memo.PDF", mtime := 5 },
   { name := "New_Memo.pdf", mtime := 9 },
   { name := "notes.txt", mtime := 50 }]

theorem trim_empty : strTrim "" = "" := rfl

theorem fieldsWithData_eq_claimFieldCount (fields : List (String × String)) :
    fieldsWithData fields = claimFieldCount fields := by
  unfold fieldsWithData claimFieldCount
  congr 1
  apply List.filter_congr
  intro kv _
  by_cases h : kv.2 = ""
  · simp [h, trim_empty]

  · have hb : (kv.2 != "") = true := bne_iff_ne.mpr h
    simp [hb]

theorem getKey_setKey_self (r : List (String × String)) (k v : String) :
    getKey (setKey r k v) k = v := by
  induction r with
  | nil => simp [setKey, getKey]
  | cons kv rest ih =>
    by_cases h : kv.1 = k
    · simp [setKey, getKey, h]
    · simp [setKey, getKey, h, ih]

theorem getKey_setKey_ne (r : List (String × String)) (k kx v : String) (h : kx ≠ k) :
    getKey (setKey r kx v) k = getKey r k := by
  induction r with
  | nil => simp [setKey, getKey, h]
  | cons kv rest ih =>
    by_cases h1 : kv.1 = kx
    · simp [setKey, getKey, h1, h]
    · simp only [setKey, getKey, beq_iff_eq, h1, if_false]
      by_cases h2 : kv.1 = k
      · simp [getKey, h2]
      · simp [getKey, h2, ih]

theorem keysOf_setKey_of_mem (r : List (String × String)) (k v : String)
    (h : k ∈ keysOf r) : keysOf (setKey r k v) = keysOf r := by
  induction r with
  | nil => simp [keysOf] at h
  | cons kv rest ih =>
    by_cases h1 : kv.1 = k
    · simp [setKey, keysOf, h1]
    · have h2 : k ∈ keysOf rest := by
        rcases (by simpa [keysOf] using h : k = kv.1 ∨ k ∈ keysOf rest) with h3 | h3
        · exact absurd h3.symm h1
        · exact h3
      simp [setKey, keysOf, h1]
      simpa [keysOf] using ih h2

theorem mem_keysOf_setKey (r : List (String × String)) (k kx v : String)
    (h : k ∈ keysOf r) : k ∈ keysOf (setKey r kx v) := by
  induction r with
  | nil => simp [keysOf] at h
  | cons kv rest ih =>
    rcases List.mem_cons.mp h with h3 | h3
    · by_cases h1 : kv.1 = kx
      · have hs : setKey (kv :: rest) kx v = (kx, v) :: rest := by simp [setKey, h1]
        rw [hs]
        exact List.mem_cons.mpr (Or.inl (h3.trans h1))
      · have hs : setKey (kv :: rest) kx v = kv :: setKey rest kx v := by simp [setKey, h1]
        rw [hs]
        exact List.mem_cons.mpr (Or.inl h3)
    · by_cases h1 : kv.1 = kx
      · have hs : setKey (kv :: rest) kx v = (kx, v) :: rest := by simp [setKey, h1]
        rw [hs]
        exact List.mem_cons.mpr (Or.inr h3)
      · have hs : setKey (kv :: rest) kx v = kv :: setKey rest kx v := by simp [setKey, h1]
        rw [hs]
        exact List.mem_cons.mpr (Or.inr (ih h3))

theorem getKey_of_all_empty (r : List (String × String)) (k : String)
    (h : ∀ kv ∈ r, kv.2 = "") : getKey r k = "" := by
  induction r with
  | nil => simp [getKey]
  | cons kv rest ih =>
    by_cases h1 : kv.1 = k
    · simpa [getKey, h1] using h kv (by simp)
    · simp only [getKey, beq_iff_eq, h1, if_false]
      exact ih (fun kv2 hm => h kv2 (by simp [hm]))

theorem keysOf_stepField (body : Dom) (r : List (String × String)) (f : String × String)
    (h : f.2 ∈ keysOf r) : keysOf (stepField body r f) = keysOf r := by
  unfold stepField
  cases resolveField body f.1 with
  | none => rfl
  | some v => exact keysOf_setKey_of_mem r f.2 v h

theorem mem_keysOf_stepField (body : Dom) (r : List (String × String)) (f : String × String)
    (k : String) (h : k ∈ keysOf r) : k ∈ keysOf (stepField body r f) := by
  unfold stepField
  cases resolveField body f.1 with
  | none => exact h
  | some v => exact mem_keysOf_setKey r k f.2 v h

theorem getKey_stepField_ne (body : Dom) (r : List (String × String)) (f : String × String)
    (k : String) (h : f.2 ≠ k) : getKey (stepField body r f) k = getKey r k := by
  unfold stepField
  cases resolveField body f.1 with
  | none => rfl
  | some v => exact getKey_setKey_ne r k f.2 v h

theorem keysOf_runFields (body : Dom) (fs : List (String × String))
    (r : List (String × String)) (h : ∀ f ∈ fs, f.2 ∈ keysOf r) :
    keysOf (runFields body fs r) = keysOf r := by
  induction fs generalizing r with
  | nil => rfl
  | cons f rest ih =>
    have hf : f.2 ∈ keysOf r := h f (by simp)
    have hstep : keysOf (stepField body r f) = keysOf r := keysOf_stepField body r f hf
    have hrest : ∀ g ∈ rest, g.2 ∈ keysOf (stepField body r f) := by
      intro g hg
      rw [hstep]
      exact h g (by simp [hg])
    calc keysOf (runFields body (f :: rest) r)
        = keysOf (runFields body rest (stepField body r f)) := rfl
      _ = keysOf (stepField body r f) := ih (stepField body r f) hrest
      _ = keysOf r := hstep

theorem mem_keysOf_runFields (body : Dom) (fs : List (String × String))
    (r : List (String × String)) (k : String) (h : k ∈ keysOf r) :
    k ∈ keysOf (runFields body fs r) := by
  induction fs generalizing r with
  | nil => exact h
  | cons f rest ih =>
    exact ih (stepField body r f) (mem_keysOf_stepField body r f k h)

theorem getKey_runFields_of_ne (body : Dom) (fs : List (String × String))
    (r : List (String × String)) (k : String) (h : ∀ f ∈ fs, f.2 ≠ k) :
    getKey (runFields body fs r) k = getKey r k := by
  induction fs generalizing r with
  | nil => rfl
  | cons f rest ih =>
    calc getKey (runFields body (f :: rest) r) k
        = getKey (runFields body rest (stepField body r f)) k := rfl
      _ = getKey (stepField body r f) k := ih (stepField body r f) (fun g hg => h g (by simp [hg]))
      _ = getKey r k := getKey_stepField_ne body r f k (h f (by simp))

/-- Value stored for a field key after the whole loop, when that key
occurs exactly once in the processed field list: the loop iterations for
other fields leave it alone, and its own iteration stores the resolved
value (or leaves the prior value on `NotFound`). -/
theorem getKey_runFields_split (body : Dom) (fs1 fs2 : List (String × String))
    (f : String × String) (r : List (String × String))
    (hk : f.2 ∈ keysOf r)
    (h1 : ∀ g ∈ fs1, g.2 ≠ f.2) (h2 : ∀ g ∈ fs2, g.2 ≠ f.2) :
    getKey (runFields body (fs1 ++ f :: fs2) r) f.2
      = (resolveField body f.1).getD (getKey r f.2) := by
  have hsplit : runFields body (fs1 ++ f :: fs2) r
      = runFields body fs2 (stepField body (runFields body fs1 r) f) := by
    unfold runFields
    rw [List.foldl_append]
    rfl
  rw [hsplit, getKey_runFields_of_ne body fs2 _ f.2 h2]
  have hpre : getKey (runFields body fs1 r) f.2 = getKey r f.2 :=
    getKey_runFields_of_ne body fs1 r f.2 h1
  have hmem : f.2 ∈ keysOf (runFields body fs1 r) :=
    mem_keysOf_runFields body fs1 r f.2 hk
  unfold stepField
  cases resolveField body f.1 with
  | none => simpa [Option.getD] using hpre
  | some v => simpa [Option.getD] using getKey_setKey_self (runFields body fs1 r) f.2 v

/-- After extraction, each schema field's stored value is exactly the
outcome of resolving that field's own label against the page (with the
empty-string sentinel on `NotFound`): extraction carries no cross-field
state. -/
theorem getKey_extract (body : Dom) (f : String × String) (hf : f ∈ fieldDefs) :
    getKey (extractCompanyFields body initFields) f.2
      = (resolveField body f.1).getD "" := by
  obtain ⟨fs1, fs2, heq⟩ := List.append_of_mem hf
  have hnd : (fieldDefs.map Prod.snd).Nodup := by decide
  rw [heq, List.map_append, List.map_cons] at hnd
  rcases List.nodup_append.mp hnd with ⟨-, hnd2, hdisj⟩
  have hnotin : f.2 ∉ List.map Prod.snd fs2 := (List.nodup_cons.mp hnd2).1
  have h1 : ∀ g ∈ fs1, g.2 ≠ f.2 := by
    intro g hg hgf
    exact hdisj (List.mem_map_of_mem Prod.snd hg) (hgf ▸ List.mem_cons_self f.2 _)
  have h2 : ∀ g ∈ fs2, g.2 ≠ f.2 := by
    intro g hg hgf
    exact hnotin (hgf ▸ List.mem_map_of_mem Prod.snd hg)
  have hkeys : f.2 ∈ keysOf initFields :=
    (by decide : ∀ g ∈ fieldDefs, g.2 ∈ keysOf initFields) f hf
  have hinit : getKey initFields f.2 = "" :=
    getKey_of_all_empty initFields f.2 (by decide)
  have hrun := getKey_runFields_split body fs1 fs2 f initFields hkeys h1 h2
  rw [hinit] at hrun
  unfold extractCompanyFields
  rw [heq]
  exact hrun

/-- When every company's navigation lands on the expected detail view,
the batch writes exactly one artifact per company, in configured order,
and finishes without a failed assertion. -/
theorem runBatch_all_ok (site : Company → Page) (t : String) (cs : List Company)
    (h : ∀ c ∈ cs, urlOk (site c).url = true) :
    runBatch site t cs
      = (cs.map (fun c => (outName c, assemble (site c).body c t)), none) := by
  induction cs with
  | nil => rfl
  | cons c rest ih =>
    have hc : urlOk (site c).url = true := h c (by simp)
    have hrest := ih (fun cx hx => h cx (by simp [hx]))
    simp [runBatch, processCompany, hc, hrest]


/-- C1: for every produced verification record, `fields_extracted`
equals the number of non-reserved keys whose trimmed value is a
non-empty string, and `extraction_success` is exactly the test
`fields_extracted > 0`, both derived from the final field values. -/
theorem c1_metadata_invariant (body : Dom) (c : Company) (t : String) :
    (assemble body c t).metadata.fields_extracted
      = some (claimFieldCount (assemble body c t).fields)
    ∧ (assemble body c t).metadata.extraction_success
      = some (decide (0 < claimFieldCount (assemble body c t).fields)) := by
  have h := fieldsWithData_eq_claimFieldCount (extractCompanyFields body initFields)
  constructor
  · simp [assemble, finalizeMeta, h]
  · simp [assemble, finalizeMeta, h]

/-- C6: extraction is deterministic up to the timestamp: records
assembled from the same page for the same company at two different
timestamps have identical field values and identical metadata except
for `extracted_at`. -/
theorem c6_deterministic (body : Dom) (c : Company) (t1 t2 : String) :
    (assemble body c t1).fields = (assemble body c t2).fields
    ∧ (assemble body c t1).metadata
      = { (assemble body c t2).metadata with extracted_at := t1 } := by
  constructor
  · rfl
  · rfl

/-- C2 counterexample: `cBad`'s navigation lands on a page whose URL
does not contain `company-detail`; contrary to the claim, no record at
all is produced for it (in particular none with `fields_extracted: 0`),
and the following company `cGood` is not processed either — the failed
URL assertion stops the whole batch. -/
theorem c2_counterexample :
    urlOk (demoSite cBad).url = false
    ∧ (runBatch demoSite "2025-01-01T00:00:00.000Z" [cBad, cGood]).1 = []
    ∧ (runBatch demoSite "2025-01-01T00:00:00.000Z" [cBad, cGood]).2
        = some urlAssertionMsg := by
  refine ⟨by decide, rfl, rfl⟩

/-- C2 amended: when navigation for an entity lands on an unexpected
page, the URL assertion fails and aborts the run: no record is produced
for that entity and no later entity in the sequence is processed. -/
theorem c2_wrong_page_aborts (site : Company → Page) (t : String) (c : Company)
    (rest : List Company) (h : urlOk (site c).url = false) :
    runBatch site t (c :: rest) = ([], some urlAssertionMsg) := by
  simp [runBatch, processCompany, h]

theorem c2_wrong_page_aborts_witness :
    runBatch demoSite "2025-01-01T00:00:00.000Z" [cBad, cGood]
      = ([], some urlAssertionMsg) :=
  c2_wrong_page_aborts demoSite "2025-01-01T00:00:00.000Z" cBad [cGood] (by decide)

/-- C3 counterexample: in a container holding both a broad-class-match
candidate (document-order first, text `BROAD`) and a structural-match
candidate (text `STRUCT`), resolution returns the broad candidate's
text, not the structural one's. -/
theorem c3_counterexample :
    resolveField (broadFirstBody "BROAD" "STRUCT") "Industry" = some "BROAD"
    ∧ resolveField (broadFirstBody "BROAD" "STRUCT") "Industry" ≠ some "STRUCT" := by
  refine ⟨by decide, by decide⟩

/-- C3 amended: the three value-selector strategies are joined into one
comma selector and `.first()` takes the first match in document order,
so strategy order confers no priority: whichever candidate appears first
in the container wins, broad-class or structural alike. -/
theorem c3_document_order_wins (x1 x2 : String) :
    resolveField (broadFirstBody x1 x2) "Industry" = some (strTrim x1)
    ∧ resolveField (structFirstBody x1 x2) "Industry" = some (strTrim x2) := by
  refine ⟨rfl, rfl⟩

/-- C5 counterexample: `Industry` and `Location` share one card on
`sharedCardBody`.  Removing the `Industry` label and value elements
(page `sharedCardBodyNoInd`) forces `Industry` to `NotFound`, yet the
value stored for `Location` changes from `A` to `B`: forcing one field
to `NotFound` by removing its elements can change another field's
resolved value. -/
theorem c5_counterexample :
    getKey (extractCompanyFields sharedCardBody initFields) "location" = "A"
    ∧ resolveField sharedCardBodyNoInd "Industry" = none
    ∧ getKey (extractCompanyFields sharedCardBodyNoInd initFields) "industry" = ""
    ∧ getKey (extractCompanyFields sharedCardBodyNoInd initFields) "location" = "B" := by
  refine ⟨by decide, by decide, by decide, by decide⟩

/-- C5 amended: on any fixed page, extraction is free of cross-field
state: every schema field is attempted regardless of other fields'
outcomes, and the value stored for a field is a function of the page
and that field's own definition only — `(resolveField page label).getD ""`.
One field's `NotFound` therefore never short-circuits or alters another
field's stored value on the same page; however, physically removing a
field's elements changes the page and may change other fields' values
when they share a container. -/
theorem c5_field_isolation (body : Dom) (f : String × String) (hf : f ∈ fieldDefs) :
    getKey (extractCompanyFields body initFields) f.2
      = (resolveField body f.1).getD "" :=
  getKey_extract body f hf

theorem c5_field_isolation_witness :
    getKey (extractCompanyFields sharedCardBody initFields) "location"
      = (resolveField sharedCardBody "Location").getD "" :=
  c5_field_isolation sharedCardBody ("Location", "location") (by decide)

/-- C4: every processed entity yields exactly one record; its field keys
are exactly the 15 schema keys (in schema order, `_extraction_metadata`
being the only other record entry), every unresolved field holds the
empty-string sentinel, and a batch whose navigations all succeed writes
exactly one artifact per configured entity, in order. -/
theorem c4_record_shape (body : Dom) (c : Company) (t : String)
    (site : Company → Page) (cs : List Company)
    (hall : ∀ cx ∈ cs, urlOk (site cx).url = true) :
    keysOf (assemble body c t).fields = schemaKeys
    ∧ (∀ f ∈ fieldDefs, resolveField body f.1 = none →
        getKey (assemble body c t).fields f.2 = "")
    ∧ runBatch site t cs
        = (cs.map (fun cx => (outName cx, assemble (site cx).body cx t)), none) := by
  refine ⟨?_, ?_, runBatch_all_ok site t cs hall⟩
  · have hkeys : ∀ g ∈ fieldDefs, g.2 ∈ keysOf initFields := by decide
    have h := keysOf_runFields body fieldDefs initFields hkeys
    have hinit : keysOf initFields = schemaKeys := by decide
    calc keysOf (assemble body c t).fields
        = keysOf (runFields body fieldDefs initFields) := rfl
      _ = keysOf initFields := h
      _ = schemaKeys := hinit
  · intro f hf hres
    calc getKey (assemble body c t).fields f.2
        = getKey (extractCompanyFields body initFields) f.2 := rfl
      _ = (resolveField body f.1).getD "" := getKey_extract body f hf
      _ = "" := by rw [hres]; rfl

theorem c4_record_shape_witness :
    keysOf (assemble sharedCardBody cGood "2025-01-01T00:00:00.000Z").fields = schemaKeys
    ∧ runBatch demoSite "2025-01-01T00:00:00.000Z" [cGood]
        = ([(outName cGood,
             assemble (demoSite cGood).body cGood "2025-01-01T00:00:00.000Z")], none) := by
  have h := c4_record_shape sharedCardBody cGood "2025-01-01T00:00:00.000Z"
    demoSite [cGood] (by decide)
  exact ⟨h.1, by simpa using h.2.2⟩

/-- Every branch of the per-location patch reports the location it was
asked about. -/
theorem patchOne_path (fsys : String → FileState) (companyName configPath : String) :
    (patchOne fsys companyName configPath).path = configPath := by
  unfold patchOne
  split
  · rfl
  · rfl
  · split
    · rfl
    · rfl


/-- C7: the configuration-patch task always returns (never throws) one
structured entry per configuration store location plus aggregate counts
and a summary; run against a writable copy containing the company and a
missing copy, it reports success count 1 of total 2, and the missing
store's entry carries an explicit error message. -/
theorem c7_patch_report (name : String) (cfg : ConfigData)
    (hfind : (cfg.companies.find? (fun cc => cc.name == name)).isSome = true) :
    (∀ (g : String → FileState) (n : String),
        (updateConfigWithMemoPath g n).results.map PathResult.path = configPaths
        ∧ (updateConfigWithMemoPath g n).totalFiles = configPaths.length)
    ∧ (updateConfigWithMemoPath (scenarioFs cfg) name).successCount = 1
    ∧ (updateConfigWithMemoPath (scenarioFs cfg) name).totalFiles = 2
    ∧ (updateConfigWithMemoPath (scenarioFs cfg) name).results.map PathResult.error
        = [none, some "File does not exist: config.json"]
    ∧ (updateConfigWithMemoPath (scenarioFs cfg) name).summary
        = "Updated 1/2 config files for " ++ name := by
  obtain ⟨cc, hcc⟩ := Option.isSome_iff_exists.mp hfind
  refine ⟨?_, ?_, rfl, ?_, ?_⟩
  · intro g n
    constructor
    · simp [updateConfigWithMemoPath, configPaths, patchOne_path]
    · rfl
  · simp [updateConfigWithMemoPath, configPaths, patchOne, scenarioFs, hcc]
  · simp [updateConfigWithMemoPath, configPaths, patchOne, scenarioFs, hcc]
  · have hsc : (List.filter (fun r => r.success)
        [patchOne (scenarioFs cfg) name "cypress/fixtures/config.json",
         patchOne (scenarioFs cfg) name "config.json"]).length = 1 := by
      simp [patchOne, scenarioFs, hcc]
    simp only [updateConfigWithMemoPath, configPaths, List.map_cons, List.map_nil]
    rw [hsc]
    rfl

theorem c7_patch_report_witness :
    (updateConfigWithMemoPath (scenarioFs demoCfg) "Algorithmics").successCount = 1
    ∧ (updateConfigWithMemoPath (scenarioFs demoCfg) "Algorithmics").totalFiles = 2
    ∧ (updateConfigWithMemoPath (scenarioFs demoCfg) "Algorithmics").results.map PathResult.error
        = [none, some "File does not exist: config.json"] := by
  have h := c7_patch_report "Algorithmics" demoCfg (by decide)
  exact ⟨h.2.1, h.2.2.1, h.2.2.2.1⟩

/-- C9: the aggregate `success` flag of the configuration-patch task is
exactly the test `successCount > 0`, so a partial 1-of-2 outcome is
reported with overall success `true`. -/
theorem c9_aggregate_success (fsys : String → FileState) (name : String) :
    (updateConfigWithMemoPath fsys name).success
      = decide (0 < (updateConfigWithMemoPath fsys name).successCount)
    ∧ (updateConfigWithMemoPath (scenarioFs demoCfg) "Algorithmics").successCount = 1
    ∧ (updateConfigWithMemoPath (scenarioFs demoCfg) "Algorithmics").success = true := by
  refine ⟨rfl, by decide, by decide⟩

/-- C10: the downloads-clearing task removes exactly the regular files
directly inside the downloads folder, keeps every subdirectory entry
(with its contents) unchanged, and returns `null` (second component)
without error even when the folder does not exist. -/
theorem c10_clear_downloads (entries : List FsEntry) (e : FsEntry)
    (hmem : e ∈ entries) (hdir : e.isFile = false) :
    clearDownloads none = (none, none)
    ∧ clearDownloads (some entries) = (some (entries.filter (fun x => !x.isFile)), none)
    ∧ e ∈ entries.filter (fun x => !x.isFile) := by
  refine ⟨rfl, rfl, ?_⟩
  simp [List.mem_filter, hmem, hdir]


theorem c10_clear_downloads_witness :
    clearDownloads none = (none, none)
    ∧ clearDownloads (some demoEntries)
        = (some (demoEntries.filter (fun x => !x.isFile)), none)
    ∧ FsEntry.dir "archive" ["kept.txt", "kept2.txt"]
        ∈ demoEntries.filter (fun x => !x.isFile) :=
  c10_clear_downloads demoEntries (FsEntry.dir "archive" ["kept.txt", "kept2.txt"])
    (by decide) (by decide)

theorem moreRecent_trans : ∀ (a b c : DlFile),
    moreRecent a b → moreRecent b c → moreRecent a c := by
  intro a b c h1 h2
  simp only [moreRecent, decide_eq_true_eq] at h1 h2 ⊢
  omega

theorem moreRecent_total : ∀ (a b : DlFile), moreRecent a b || moreRecent b a := by
  intro a b
  simp only [moreRecent]
  rcases Nat.le_total b.mtime a.mtime with h | h
  · simp [h]
  · simp [h]

/-- C8: the artifact-relocation task reports structured failure (not an
exception) when no PDF is staged, and otherwise succeeds with the
deterministic name `{companyName}_Investment_Memo.pdf`, removing from
the staging folder a PDF whose modification time is maximal among the
staged PDFs. -/
theorem c8_move_task (downloads : List DlFile) (companyName targetFolder : String) :
    (downloads.filter isPdf = [] →
      moveDownloadedFile downloads companyName targetFolder
        = ({ success := false, filename := none, fullPath := none,
             error := some "No PDF file found in downloads" }, downloads))
    ∧ (downloads.filter isPdf ≠ [] →
      (moveDownloadedFile downloads companyName targetFolder).1.success = true
      ∧ (moveDownloadedFile downloads companyName targetFolder).1.filename
          = some (companyName ++ "_Investment_Memo.pdf")
      ∧ (moveDownloadedFile downloads companyName targetFolder).1.error = none
      ∧ ∃ sel : DlFile, sel ∈ downloads.filter isPdf
          ∧ (moveDownloadedFile downloads companyName targetFolder).2 = downloads.erase sel
          ∧ ∀ g ∈ downloads.filter isPdf, g.mtime ≤ sel.mtime) := by
  constructor
  · intro h
    unfold moveDownloadedFile
    rw [h, List.mergeSort_nil]
  · intro h
    cases heq : (downloads.filter isPdf).mergeSort moreRecent with
    | nil =>
      exfalso
      have hperm := List.mergeSort_perm (downloads.filter isPdf) moreRecent
      rw [heq] at hperm
      exact h (List.perm_nil.mp hperm.symm)
    | cons f rest =>
      have hperm := List.mergeSort_perm (downloads.filter isPdf) moreRecent
      rw [heq] at hperm
      have hsorted := List.sorted_mergeSort moreRecent_trans moreRecent_total
        (downloads.filter isPdf)
      rw [heq] at hsorted
      have hhead := (List.pairwise_cons.mp hsorted).1
      refine ⟨?_, ?_, ?_, f, ?_, ?_, ?_⟩
      · unfold moveDownloadedFile
        rw [heq]
      · unfold moveDownloadedFile
        rw [heq]
      · unfold moveDownloadedFile
        rw [heq]
      · exact hperm.subset (List.mem_cons_self f rest)
      · unfold moveDownloadedFile
        rw [heq]
      · intro g hg
        rcases List.mem_cons.mp (hperm.symm.subset hg) with hgf | hgr
        · rw [hgf]
        · have := hhead g hgr
          simpa [moreRecent, decide_eq_true_eq] using this


theorem c8_move_task_witness :
    moveDownloadedFile [] "Algorithmics" "data/ai_outputs"
      = ({ success := false, filename := none, fullPath := none,
           error := some "No PDF file found in downloads" }, [])
    ∧ (moveDownloadedFile demoDownloads "Algorithmics" "data/ai_outputs").1.success = true
    ∧ (moveDownloadedFile demoDownloads "Algorithmics" "data/ai_outputs").1.filename
        = some "Algorithmics_Investment_Memo.pdf" := by
  refine ⟨(c8_move_task [] "Algorithmics" "data/ai_outputs").1 (by decide), ?_, ?_⟩
  · exact ((c8_move_task demoDownloads "Algorithmics" "data/ai_outputs").2 (by decide)).1
  · exact ((c8_move_task demoDownloads "Algorithmics" "data/ai_outputs").2 (by decide)).2.1
